import Mathlib

/-!
# Verification of the batsman/styx static-site build pipeline

A shallow embedding, in Lean 4, of the core build pipeline of the
batsman ("styx") static site generator, together with theorems settling
the specification's claims about it.

Modelling conventions:

* Go strings are modelled as `List Char` (abbreviated `Str`); documents
  are modelled as lists of lines (`List Str`), matching the line-based
  `bufio.Scanner` processing of `ParseFrontMatter`.
* Filesystem paths are modelled as lists of path segments
  (`List Str`); `filepath.Dir` is `List.dropLast`, `info.Name()` is the
  last segment, `filepath.Ext` inspects the last segment.
* `time.Time` is modelled by the record `GoTime` (calendar fields plus
  a UTC offset in minutes); `time.Time.Before` compares the absolute
  instants (`GoTime.instant`).  `time.Parse` on the three fixed layouts
  used by the program is modelled by shape-exact parsers
  (`parseFmt1/2/3`), including Go's range validation of month, day,
  hour, minute and second.
* Go maps with string keys are modelled as functions with pointwise
  update; Go channels drained by a loop are modelled as the list of
  messages in arrival order, folded by the literal loop body.
* External collaborators (blackfriday markdown, the minifiers, the
  template engine) are treated, as the specification directs, as
  opaque-contract pure functions: markdown rendering is an unspecified
  pure transform (`renderMarkdown`), and template-file parsing verdicts
  are a boolean-valued parameter (`tmplOk`) of the phase-2 model, since
  they depend only on on-disk template sources.
-/

/-- Go strings, modelled as lists of characters. -/
abbrev Str := List Char

/-- Shorthand to write a `Str` from a string literal. -/
def str (s : String) : Str := s.data

/-- The ASCII white-space characters recognised by `unicode.IsSpace`
(`strings.TrimSpace`); the corpus only ever trims ASCII metadata lines. -/
def isSpaceChar (c : Char) : Bool :=
  c = ' ' || c = '\t' || c = '\n' || c = '\x0b' || c = '\x0c' || c = '\r'

/-- Trim leading white space (left half of `strings.TrimSpace`). -/
def trimLeft (s : Str) : Str := s.dropWhile isSpaceChar

/-- Trim trailing white space (right half of `strings.TrimSpace`). -/
def trimRight : Str → Str
  | [] => []
  | c :: cs =>
    match trimRight cs with
    | [] => if isSpaceChar c then [] else [c]
    | r => c :: r

/-- `strings.TrimSpace`. -/
def trimSpace (s : Str) : Str := trimLeft (trimRight s)

/-- `strings.SplitN(l, sep, 2)` for a one-character separator: `none`
when the separator does not occur (the Go call returns a single part),
otherwise the parts before and after the first occurrence. -/
def splitOnce (sep : Char) : Str → Option (Str × Str)
  | [] => none
  | c :: cs =>
    if c = sep then some ([], cs)
    else (splitOnce sep cs).map (fun p => (c :: p.1, p.2))

theorem dropWhile_dropWhile (p : Char → Bool) (l : Str) :
    (l.dropWhile p).dropWhile p = l.dropWhile p := by
  induction l with
  | nil => rfl
  | cons a l ih =>
    by_cases h : p a
    · simp [List.dropWhile_cons, h, ih]
    · simp [List.dropWhile_cons, h]

theorem trimLeft_trimLeft (l : Str) : trimLeft (trimLeft l) = trimLeft l :=
  dropWhile_dropWhile isSpaceChar l

theorem trimRight_cons (c : Char) (cs : Str) :
    trimRight (c :: cs) =
      match trimRight cs with
      | [] => if isSpaceChar c then [] else [c]
      | r => c :: r := rfl

theorem trimRight_trimRight (l : Str) : trimRight (trimRight l) = trimRight l := by
  induction l with
  | nil => rfl
  | cons c cs ih =>
    rcases h : trimRight cs with _ | ⟨r, rs⟩
    · by_cases hc : isSpaceChar c
      · simp [trimRight_cons, h, hc, trimRight]
      · simp [trimRight_cons, h, hc, trimRight]
    · rw [h] at ih
      have h2 : trimRight (c :: cs) = c :: r :: rs := by
        rw [trimRight_cons, h]
      rw [h2, trimRight_cons, ih]

theorem trimRight_trimLeft_comm (l : Str) :
    trimRight (trimLeft l) = trimLeft (trimRight l) := by
  induction l with
  | nil => rfl
  | cons c cs ih =>
    by_cases hc : isSpaceChar c
    · simp only [trimLeft, List.dropWhile_cons, hc, if_true]
      rw [show cs.dropWhile isSpaceChar = trimLeft cs from rfl, ih]
      simp only [trimRight]
      rcases h : trimRight cs with _ | ⟨r, rs⟩
      · simp [trimLeft, hc]
      · simp [trimLeft, List.dropWhile_cons, hc]
    · simp only [trimLeft, List.dropWhile_cons, hc, if_false]
      simp only [trimRight]
      rcases h : trimRight cs with _ | ⟨r, rs⟩
      · simp [hc, trimLeft, List.dropWhile_cons]
      · simp [trimLeft, List.dropWhile_cons, hc]

theorem trimSpace_trimSpace (l : Str) : trimSpace (trimSpace l) = trimSpace l := by
  unfold trimSpace
  rw [trimRight_trimLeft_comm, trimRight_trimRight, trimLeft_trimLeft]

/-- Prepending a space does not change the trimmed value. -/
theorem trimSpace_space_cons (l : Str) : trimSpace (' ' :: l) = trimSpace l := by
  unfold trimSpace
  simp only [trimRight]
  rcases h : trimRight l with _ | ⟨r, rs⟩
  · simp [trimLeft, isSpaceChar]
  · simp [trimLeft, List.dropWhile_cons, isSpaceChar]

theorem trimRight_append_singleton (xs : Str) (d : Char) (hd : isSpaceChar d = false) :
    trimRight (xs ++ [d]) = xs ++ [d] := by
  induction xs with
  | nil => simp [trimRight, hd]
  | cons x xs ih =>
    rw [List.cons_append]
    rcases h : xs ++ [d] with _ | ⟨y, ys⟩
    · simp at h
    · rw [h] at ih
      rw [trimRight_cons, ih]

/-- A list with a non-space head and a non-space last element is fixed
by `trimSpace`. -/
theorem trimSpace_eq_self (c : Char) (mid : Str) (d : Char)
    (hc : isSpaceChar c = false) (hd : isSpaceChar d = false) :
    trimSpace (c :: mid ++ [d]) = c :: mid ++ [d] := by
  unfold trimSpace
  rw [show c :: mid ++ [d] = (c :: mid) ++ [d] from rfl,
    trimRight_append_singleton (c :: mid) d hd]
  simp [trimLeft, List.dropWhile_cons, hc]

/-! ## Time: the fragment of `time.Parse`/`time.Format` the program uses -/

/-- A parsed `time.Time` value: calendar fields plus the UTC offset in
minutes (positive east of UTC), which is all the program ever observes
of a `time.Time` (comparison, formatting). -/
structure GoTime where
  year : Nat
  month : Nat
  day : Nat
  hour : Nat
  minute : Nat
  second : Nat
  offset : Int
  deriving DecidableEq, Repr, Inhabited

def isLeapYear (y : Nat) : Bool := (y % 4 = 0 && y % 100 != 0) || y % 400 = 0

/-- Days in a month, as used by Go's day-of-month range validation. -/
def daysIn (y m : Nat) : Nat :=
  if m = 2 then (if isLeapYear y then 29 else 28)
  else if m = 4 || m = 6 || m = 9 || m = 11 then 30
  else 31

/-- Days between 1970-01-01 and year/month/day (proleptic Gregorian);
the standard days-from-civil computation used to compare instants. -/
def daysFromCivil (y m d : Int) : Int :=
  let y' := if m ≤ 2 then y - 1 else y
  let era := (if 0 ≤ y' then y' else y' - 399) / 400
  let yoe := y' - era * 400
  let mp := if 2 < m then m - 3 else m + 9
  let doy := (153 * mp + 2) / 5 + d - 1
  let doe := yoe * 365 + yoe / 4 - yoe / 100 + doy
  era * 146097 + doe - 719468

/-- The absolute instant (seconds since the Unix epoch) denoted by a
`GoTime`; `time.Time.Before` compares these instants. -/
def GoTime.instant (t : GoTime) : Int :=
  daysFromCivil t.year t.month t.day * 86400
    + t.hour * 3600 + t.minute * 60 + t.second - t.offset * 60

def digitVal (c : Char) : Nat := c.toNat - '0'.toNat

def digitChar (n : Nat) : Char := Char.ofNat ('0'.toNat + n)

/-- Two fixed decimal digits (Go's `getnum` with `fixed = true`). -/
def getnum2 (a b : Char) : Option Nat :=
  if a.isDigit && b.isDigit then some (10 * digitVal a + digitVal b) else none

/-- Four fixed decimal digits (the `2006` year component). -/
def getnum4 (a b c d : Char) : Option Nat :=
  if a.isDigit && b.isDigit && c.isDigit && d.isDigit then
    some (1000 * digitVal a + 100 * digitVal b + 10 * digitVal c + digitVal d)
  else none

/-- `time.Parse` with layout `"2006-01-02"`: shape-exact match plus
Go's range validation (month 1–12, day 1–daysIn); missing clock and
zone components default to zero, i.e. UTC midnight. -/
def parseFmt3 (cs : Str) : Option GoTime :=
  match cs with
  | [y1, y2, y3, y4, '-', m1, m2, '-', d1, d2] => do
    let y ← getnum4 y1 y2 y3 y4
    let mo ← getnum2 m1 m2
    let d ← getnum2 d1 d2
    if 1 ≤ mo && mo ≤ 12 && 1 ≤ d && d ≤ daysIn y mo then
      some ⟨y, mo, d, 0, 0, 0, 0⟩
    else none
  | _ => none

/-- `time.Parse` with layout `"2006-01-02 15:04:05"`. -/
def parseFmt2 (cs : Str) : Option GoTime :=
  match cs with
  | [y1, y2, y3, y4, '-', m1, m2, '-', d1, d2, ' ',
     h1, h2, ':', n1, n2, ':', s1, s2] => do
    let y ← getnum4 y1 y2 y3 y4
    let mo ← getnum2 m1 m2
    let d ← getnum2 d1 d2
    let h ← getnum2 h1 h2
    let mi ← getnum2 n1 n2
    let s ← getnum2 s1 s2
    if 1 ≤ mo && mo ≤ 12 && 1 ≤ d && d ≤ daysIn y mo
        && h ≤ 23 && mi ≤ 59 && s ≤ 59 then
      some ⟨y, mo, d, h, mi, s, 0⟩
    else none
  | _ => none

/-- `time.Parse` with layout `"2006-01-02 15:04:05 -07:00"`; the zone
is a sign and two two-digit groups (Go does not range-check them). -/
def parseFmt1 (cs : Str) : Option GoTime :=
  match cs with
  | [y1, y2, y3, y4, '-', m1, m2, '-', d1, d2, ' ',
     h1, h2, ':', n1, n2, ':', s1, s2, ' ', sg, z1, z2, ':', z3, z4] => do
    let y ← getnum4 y1 y2 y3 y4
    let mo ← getnum2 m1 m2
    let d ← getnum2 d1 d2
    let h ← getnum2 h1 h2
    let mi ← getnum2 n1 n2
    let s ← getnum2 s1 s2
    let zh ← getnum2 z1 z2
    let zm ← getnum2 z3 z4
    let sign ← if sg = '+' then some (1 : Int)
      else if sg = '-' then some (-1 : Int) else none
    if 1 ≤ mo && mo ≤ 12 && 1 ≤ d && d ≤ daysIn y mo
        && h ≤ 23 && mi ≤ 59 && s ≤ 59 then
      some ⟨y, mo, d, h, mi, s, sign * (zh * 60 + zm)⟩
    else none
  | _ => none

/-- `knownTimeFormats` (frontmatter.go): the ordered list of accepted
layout strings, most specific first. -/
def knownTimeFormats : List Str :=
  [str "2006-01-02 15:04:05 -07:00", str "2006-01-02 15:04:05", str "2006-01-02"]

/-- `defaultTimeFormat = knownTimeFormats[0]`. -/
def defaultTimeFormat : Str := knownTimeFormats.headD []

/-- `time.Parse(format, v)` restricted to the three layouts the program
passes; any other layout is never used. -/
def goTimeParse (format v : Str) : Option GoTime :=
  if format = str "2006-01-02 15:04:05 -07:00" then parseFmt1 v
  else if format = str "2006-01-02 15:04:05" then parseFmt2 v
  else if format = str "2006-01-02" then parseFmt3 v
  else none

def pad2 (n : Nat) : Str := [digitChar (n / 10), digitChar (n % 10)]

def pad4 (n : Nat) : Str :=
  [digitChar (n / 1000), digitChar (n / 100 % 10), digitChar (n / 10 % 10), digitChar (n % 10)]

/-- `time.Time.Format` with the default layout
`"2006-01-02 15:04:05 -07:00"`. -/
def formatTime1 (t : GoTime) : Str :=
  let mag := t.offset.natAbs
  pad4 t.year ++ '-' :: pad2 t.month ++ '-' :: pad2 t.day
    ++ ' ' :: pad2 t.hour ++ ':' :: pad2 t.minute ++ ':' :: pad2 t.second
    ++ ' ' :: (if t.offset < 0 then '-' else '+') :: (pad2 (mag / 60) ++ ':' :: pad2 (mag % 60))

/-- The field ranges within which a `GoTime` can be printed by
`formatTime1` and re-parsed to the same value. -/
def ValidTime (t : GoTime) : Prop :=
  t.year ≤ 9999 ∧ 1 ≤ t.month ∧ t.month ≤ 12 ∧ 1 ≤ t.day ∧ t.day ≤ daysIn t.year t.month
    ∧ t.hour ≤ 23 ∧ t.minute ≤ 59 ∧ t.second ≤ 59 ∧ t.offset.natAbs ≤ 5999

instance : DecidablePred ValidTime := fun t =>
  inferInstanceAs (Decidable (t.year ≤ 9999 ∧ 1 ≤ t.month ∧ t.month ≤ 12 ∧ 1 ≤ t.day
    ∧ t.day ≤ daysIn t.year t.month ∧ t.hour ≤ 23 ∧ t.minute ≤ 59 ∧ t.second ≤ 59
    ∧ t.offset.natAbs ≤ 5999))

theorem isDigit_digitChar (n : Nat) (h : n < 10) : (digitChar n).isDigit = true := by
  interval_cases n <;> decide

theorem digitVal_digitChar (n : Nat) (h : n < 10) : digitVal (digitChar n) = n := by
  interval_cases n <;> decide

theorem isSpaceChar_digitChar (n : Nat) (h : n < 10) :
    isSpaceChar (digitChar n) = false := by
  interval_cases n <;> decide

theorem getnum2_pad2 (n : Nat) (h : n < 100) :
    getnum2 (digitChar (n / 10)) (digitChar (n % 10)) = some n := by
  have h1 : n / 10 < 10 := by omega
  have h2 : n % 10 < 10 := by omega
  simp [getnum2, isDigit_digitChar _ h1, isDigit_digitChar _ h2,
    digitVal_digitChar _ h1, digitVal_digitChar _ h2]
  omega

theorem getnum4_pad4 (n : Nat) (h : n < 10000) :
    getnum4 (digitChar (n / 1000)) (digitChar (n / 100 % 10))
      (digitChar (n / 10 % 10)) (digitChar (n % 10)) = some n := by
  have h1 : n / 1000 < 10 := by omega
  have h2 : n / 100 % 10 < 10 := by omega
  have h3 : n / 10 % 10 < 10 := by omega
  have h4 : n % 10 < 10 := by omega
  simp [getnum4, isDigit_digitChar _ h1, isDigit_digitChar _ h2, isDigit_digitChar _ h3,
    isDigit_digitChar _ h4, digitVal_digitChar _ h1, digitVal_digitChar _ h2,
    digitVal_digitChar _ h3, digitVal_digitChar _ h4]
  omega


theorem daysIn_le (y m : Nat) : daysIn y m ≤ 31 := by
  unfold daysIn
  split
  · split <;> omega
  · split <;> omega

/-- Printing a representable `GoTime` with the default layout and
re-parsing it with the same layout restores the value. -/
theorem parseFmt1_formatTime1 (t : GoTime) (h : ValidTime t) :
    parseFmt1 (formatTime1 t) = some t := by
  obtain ⟨y, mo, d, hh, mi, s, off⟩ := t
  unfold ValidTime at h
  simp only at h
  obtain ⟨hy, hmo1, hmo2, hd1, hd2, hh', hmi, hs, hoff⟩ := h
  have hd3 : d < 100 := by have := daysIn_le y mo; omega
  have hcond : (decide (1 ≤ mo) && decide (mo ≤ 12) && decide (1 ≤ d)
      && decide (d ≤ daysIn y mo) && decide (hh ≤ 23)
      && decide (mi ≤ 59) && decide (s ≤ 59)) = true := by
    simp only [Bool.and_eq_true, decide_eq_true_eq]
    omega
  simp only [formatTime1, pad4, pad2, List.cons_append, List.nil_append]
  by_cases hneg : (GoTime.mk y mo d hh mi s off).offset < 0
  · simp only [hneg, if_true]
    simp only at hneg
    simp only [parseFmt1, getnum4_pad4 y (by omega), getnum2_pad2 mo (by omega),
      getnum2_pad2 d hd3, getnum2_pad2 hh (by omega), getnum2_pad2 mi (by omega),
      getnum2_pad2 s (by omega),
      getnum2_pad2 (Int.natAbs off / 60) (by omega),
      getnum2_pad2 (Int.natAbs off % 60) (by omega), Option.bind_eq_bind,
      Option.some_bind]
    simp only [eq_false (show ¬('-' = '+') from by decide), if_false, if_true,
      eq_self_iff_true, Option.some_bind]
    rw [if_pos hcond]
    simp only [Option.some.injEq, GoTime.mk.injEq]
    refine ⟨trivial, trivial, trivial, trivial, trivial, trivial, ?_⟩
    omega
  · simp only [hneg, if_false]
    simp only at hneg
    simp only [parseFmt1, getnum4_pad4 y (by omega), getnum2_pad2 mo (by omega),
      getnum2_pad2 d hd3, getnum2_pad2 hh (by omega), getnum2_pad2 mi (by omega),
      getnum2_pad2 s (by omega),
      getnum2_pad2 (Int.natAbs off / 60) (by omega),
      getnum2_pad2 (Int.natAbs off % 60) (by omega), Option.bind_eq_bind,
      Option.some_bind]
    simp only [eq_self_iff_true, if_true, Option.some_bind]
    rw [if_pos hcond]
    simp only [Option.some.injEq, GoTime.mk.injEq]
    refine ⟨trivial, trivial, trivial, trivial, trivial, trivial, ?_⟩
    omega

/-! ## Front matter (frontmatter.go / main.go) -/

/-- `FrontMatter` (frontmatter.go): draft flag, title and timestamp. -/
structure FrontMatter where
  Draft : Bool
  Title : Str
  Time : GoTime
  deriving DecidableEq, Repr, Inhabited

/-- The error shapes of the metadata-parsing path:
`invalid` is `InvalidFrontMatterError` (key, value, accepted values or
formats); `malformedLine` is the `"should be in format \"key: val\""`
error; `noFrontMatter` is the `ErrNoFrontMatter` sentinel used by the
`FrontMatter.Parse` variant. -/
inductive FMErr where
  | invalid (key val : Str) (correctVals : List Str)
  | malformedLine (line : Str)
  | noFrontMatter
  deriving DecidableEq, Repr

/-- `FrontMatterSep`. -/
def FrontMatterSep : Str := str "---"

/-- The metadata map: Go's `map[string]string` with absent keys reading
as `""` (the Go code preinitialises `draft`/`title`/`time` to `""`,
which coincides with the empty function map). -/
abbrev Meta := Str → Str

def metaEmpty : Meta := fun _ => []

def metaUpdate (m : Meta) (k v : Str) : Meta := fun k' => if k' = k then v else m k'

/-- The time-parsing loop of `FrontMatter.fromMap`: formats are tried
in order and the first success wins; the `[]` case realises the loop's
`i == len(knownTimeFormats)-1` arm, returning the error that carries
the key, the offending value and the full accepted-format list. -/
def tryFormats (v : Str) : List Str → Except FMErr GoTime
  | [] => .error (.invalid (str "time") v knownTimeFormats)
  | f :: fs =>
    match goTimeParse f v with
    | some t => .ok t
    | none => tryFormats v fs

/-- The title and time assignments of `FrontMatter.fromMap`, after the
draft flag has been validated. -/
def fromMapFinish (ct : GoTime) (m : Meta) (draft : Bool) : Except FMErr FrontMatter :=
  if m (str "time") = [] then .ok ⟨draft, m (str "title"), ct⟩
  else
    match tryFormats (m (str "time")) knownTimeFormats with
    | .ok t => .ok ⟨draft, m (str "title"), t⟩
    | .error e => .error e

/-- `FrontMatter.fromMap` (frontmatter.go): validate `draft`, copy
`title`, parse `time`; a missing time value defaults to `ct`, the
build's once-computed current time. -/
def fromMap (ct : GoTime) (m : Meta) : Except FMErr FrontMatter :=
  if m (str "draft") = str "true" then fromMapFinish ct m true
  else if m (str "draft") ≠ [] ∧ m (str "draft") ≠ str "false" then
    .error (.invalid (str "draft") (m (str "draft")) [str "true", str "false"])
  else fromMapFinish ct m false

/-- The scan loop of `ParseFrontMatter`: read lines until the closing
delimiter; each line must split on the first `:`; key and value are
trimmed and stored.  Reaching the end of input without a closing
delimiter simply ends the loop with the metadata collected so far. -/
def collectMeta (m : Meta) : List Str → Except FMErr Meta
  | [] => .ok m
  | l :: ls =>
    if l = FrontMatterSep then .ok m
    else
      match splitOnce ':' l with
      | some (k, v) => collectMeta (metaUpdate m (trimSpace k) (trimSpace v)) ls
      | none => .error (.malformedLine l)

/-- The result triple of `ParseFrontMatter`: the front matter, the
`exists` flag, and the error.  On error Go returns the zero
`FrontMatter` alongside (callers never read it). -/
structure PFMResult where
  fm : FrontMatter
  found : Bool
  err : Option FMErr
  deriving DecidableEq, Repr

/-- `ParseFrontMatter` (frontmatter.go): no front matter unless the
first line is the delimiter; otherwise scan metadata lines and build
the `FrontMatter` via `fromMap`. -/
def ParseFrontMatter (ct : GoTime) (lines : List Str) : PFMResult :=
  match lines with
  | [] => ⟨default, false, none⟩
  | first :: rest =>
    if first = FrontMatterSep then
      match collectMeta metaEmpty rest with
      | .error e => ⟨default, true, some e⟩
      | .ok m =>
        match fromMap ct m with
        | .error e => ⟨default, true, some e⟩
        | .ok fm => ⟨fm, true, none⟩
    else ⟨default, false, none⟩

/-- Modelled from the spec: `FrontMatter.Parse`, called by
`Build.makePages`, is not part of the corpus (only its callers are);
per §4.1 it reports absence of a metadata block as the sentinel
`ErrNoFrontMatter` ("no metadata" is not an error) and otherwise
parses exactly as the corpus's `ParseFrontMatter` does. -/
def fmParse (ct : GoTime) (lines : List Str) : Except FMErr FrontMatter :=
  match lines with
  | [] => .error .noFrontMatter
  | first :: rest =>
    if first = FrontMatterSep then
      match collectMeta metaEmpty rest with
      | .error e => .error e
      | .ok m => fromMap ct m
    else .error .noFrontMatter

/-- Modelled from the spec: the corpus's front-matter serializer (the
`String` form printed by the `new` command) is not under src; §6 gives
the wire format "a delimiter line, then `key <sep> value` lines, then
the same delimiter line closing the block".  This serializer writes the
parser's own delimiter and separator, unquoted, with the time printed
in `defaultTimeFormat`. -/
def serializeFrontMatter (fm : FrontMatter) : List Str :=
  [FrontMatterSep,
   str "title: " ++ fm.Title,
   str "draft: " ++ (if fm.Draft then str "true" else str "false"),
   str "time: " ++ formatTime1 fm.Time,
   FrontMatterSep]

theorem tryFormats_eq_findSome (v : Str) (fs : List Str) :
    tryFormats v fs =
      (fs.findSome? (fun f => goTimeParse f v)).elim
        (Except.error (.invalid (str "time") v knownTimeFormats)) Except.ok := by
  induction fs with
  | nil => rfl
  | cons f fs ih =>
    unfold tryFormats
    rw [List.findSome?_cons]
    cases h : goTimeParse f v
    · simpa using ih
    · rfl

theorem fromMap_title (ct : GoTime) (m : Meta) (fm : FrontMatter)
    (h : fromMap ct m = .ok fm) : fm.Title = m (str "title") := by
  unfold fromMap fromMapFinish at h
  split at h
  · split at h
    · injection h with h2; rw [← h2]
    · split at h
      · injection h with h2; rw [← h2]
      · exact Except.noConfusion h
  · split at h
    · exact Except.noConfusion h
    · split at h
      · injection h with h2; rw [← h2]
      · split at h
        · injection h with h2; rw [← h2]
        · exact Except.noConfusion h

theorem collectMeta_trimFixed (ls : List Str) : ∀ (m m' : Meta),
    (∀ k, trimSpace (m k) = m k) → collectMeta m ls = .ok m' →
    ∀ k, trimSpace (m' k) = m' k := by
  induction ls with
  | nil =>
    intro m m' hm h k
    cases h
    exact hm k
  | cons l ls ih =>
    intro m m' hm h k
    unfold collectMeta at h
    split at h
    · cases h
      exact hm k
    · split at h
      · refine ih _ _ ?_ h k
        intro k2
        unfold metaUpdate
        split
        · exact trimSpace_trimSpace _
        · exact hm k2
      · exact Except.noConfusion h

/-- A successful `ParseFrontMatter` always returns a trimmed title. -/
theorem ParseFrontMatter_title_trim (ct : GoTime) (lines : List Str) (fm : FrontMatter)
    (h : ParseFrontMatter ct lines = ⟨fm, true, none⟩) :
    trimSpace fm.Title = fm.Title := by
  unfold ParseFrontMatter at h
  match lines with
  | [] => cases h
  | first :: rest =>
    simp only at h
    split at h
    · split at h
      · cases h
      · rename_i m hm
        split at h
        · cases h
        · rename_i fm' hfm
          injection h with h1 h2 h3
          rw [← h1, fromMap_title ct m fm' hfm]
          exact collectMeta_trimFixed rest metaEmpty m (fun _ => rfl) hm (str "title")
    · cases h

theorem trimRight_eq_self (l : Str)
    (h : ∀ c, l.getLast? = some c → isSpaceChar c = false) : trimRight l = l := by
  induction l with
  | nil => rfl
  | cons c cs ih =>
    match cs with
    | [] =>
      have := h c rfl
      simp [trimRight, this]
    | x :: xs =>
      have h2 : trimRight (x :: xs) = x :: xs := by
        refine ih ?_
        intro c2 hc2
        exact h c2 (by rw [List.getLast?_cons_cons]; exact hc2)
      rw [trimRight_cons, h2]

theorem trimSpace_eq_self₂ (l : Str)
    (hhead : ∀ c, l.head? = some c → isSpaceChar c = false)
    (hlast : ∀ c, l.getLast? = some c → isSpaceChar c = false) :
    trimSpace l = l := by
  unfold trimSpace
  rw [trimRight_eq_self l hlast]
  match l with
  | [] => rfl
  | c :: cs =>
    have := hhead c rfl
    simp [trimLeft, List.dropWhile_cons, this]

theorem trimSpace_formatTime1 (t : GoTime) (h : ValidTime t) :
    trimSpace (formatTime1 t) = formatTime1 t := by
  obtain ⟨y, mo, d, hh, mi, s, off⟩ := t
  unfold ValidTime at h
  simp only at h
  refine trimSpace_eq_self₂ _ ?_ ?_
  · intro c hc
    simp only [formatTime1, pad4, pad2, List.cons_append, List.nil_append,
      List.head?_cons, Option.some.injEq] at hc
    rw [← hc]
    exact isSpaceChar_digitChar _ (by omega)
  · intro c hc
    simp only [formatTime1, pad4, pad2, List.cons_append, List.nil_append,
      List.getLast?_cons_cons, List.getLast?_singleton, Option.some.injEq] at hc
    rw [← hc]
    exact isSpaceChar_digitChar _ (by omega)

theorem formatTime1_ne_nil (t : GoTime) : formatTime1 t ≠ [] := by
  simp [formatTime1, pad4]

theorem tryFormats_formatTime1 (tm : GoTime) (hv : ValidTime tm) :
    tryFormats (formatTime1 tm) knownTimeFormats = .ok tm := by
  show tryFormats (formatTime1 tm) (str "2006-01-02 15:04:05 -07:00" :: _) = _
  unfold tryFormats
  rw [show goTimeParse (str "2006-01-02 15:04:05 -07:00") (formatTime1 tm)
        = parseFmt1 (formatTime1 tm) from rfl,
    parseFmt1_formatTime1 tm hv]

/-- Evaluating `fromMap` on the metadata map produced by scanning a
serialized front-matter block restores the serialized fields. -/
theorem fromMap_serialized (ct : GoTime) (dr : Bool) (T : Str) (tm : GoTime)
    (hT : trimSpace T = T) (hv : ValidTime tm) :
    fromMap ct (metaUpdate (metaUpdate (metaUpdate metaEmpty
        (str "title") (trimSpace (' ' :: T)))
        (str "draft") (trimSpace (' ' :: (if dr then str "true" else str "false"))))
        (str "time") (trimSpace (' ' :: formatTime1 tm)))
      = .ok ⟨dr, T, tm⟩ := by
  have hF : trimSpace (' ' :: formatTime1 tm) = formatTime1 tm := by
    rw [trimSpace_space_cons]
    exact trimSpace_formatTime1 tm hv
  have hTT : trimSpace (' ' :: T) = T := by
    rw [trimSpace_space_cons]
    exact hT
  have e2 : (metaUpdate (metaUpdate (metaUpdate metaEmpty
      (str "title") (trimSpace (' ' :: T)))
      (str "draft") (trimSpace (' ' :: (if dr then str "true" else str "false"))))
      (str "time") (trimSpace (' ' :: formatTime1 tm))) (str "title") = T := by
    show trimSpace (' ' :: T) = T
    exact hTT
  have e3 : (metaUpdate (metaUpdate (metaUpdate metaEmpty
      (str "title") (trimSpace (' ' :: T)))
      (str "draft") (trimSpace (' ' :: (if dr then str "true" else str "false"))))
      (str "time") (trimSpace (' ' :: formatTime1 tm))) (str "time")
      = formatTime1 tm := by
    show trimSpace (' ' :: formatTime1 tm) = _
    exact hF
  unfold fromMap fromMapFinish
  rw [e2, e3]
  cases dr
  · have e1 : (metaUpdate (metaUpdate (metaUpdate metaEmpty
        (str "title") (trimSpace (' ' :: T)))
        (str "draft") (trimSpace (' ' :: (if false then str "true" else str "false"))))
        (str "time") (trimSpace (' ' :: formatTime1 tm))) (str "draft") = str "false" := rfl
    rw [e1, if_neg (by decide), if_neg (by decide),
      if_neg (formatTime1_ne_nil tm), tryFormats_formatTime1 tm hv]
  · have e1 : (metaUpdate (metaUpdate (metaUpdate metaEmpty
        (str "title") (trimSpace (' ' :: T)))
        (str "draft") (trimSpace (' ' :: (if true then str "true" else str "false"))))
        (str "time") (trimSpace (' ' :: formatTime1 tm))) (str "draft") = str "true" := rfl
    rw [e1, if_pos rfl, if_neg (formatTime1_ne_nil tm), tryFormats_formatTime1 tm hv]

/-- Parsing a document, re-serializing the parsed fields unquoted, and
concatenating with any body yields a document that parses back to the
same effective field values. -/
theorem parse_serialize_roundtrip (ct : GoTime) (lines body : List Str) (fm : FrontMatter)
    (hp : ParseFrontMatter ct lines = ⟨fm, true, none⟩)
    (hv : ValidTime fm.Time) :
    ParseFrontMatter ct (serializeFrontMatter fm ++ body) = ⟨fm, true, none⟩ := by
  have hT : trimSpace fm.Title = fm.Title := ParseFrontMatter_title_trim ct lines fm hp
  obtain ⟨dr, T, tm⟩ := fm
  simp only at hT hv
  have hc : collectMeta metaEmpty
      ((str "title: " ++ T) ::
        (str "draft: " ++ (if dr then str "true" else str "false")) ::
        (str "time: " ++ formatTime1 tm) :: FrontMatterSep :: body)
      = .ok (metaUpdate (metaUpdate (metaUpdate metaEmpty
          (str "title") (trimSpace (' ' :: T)))
          (str "draft") (trimSpace (' ' :: (if dr then str "true" else str "false"))))
          (str "time") (trimSpace (' ' :: formatTime1 tm))) := rfl
  rw [show serializeFrontMatter ⟨dr, T, tm⟩ ++ body
      = FrontMatterSep :: (str "title: " ++ T) ::
        (str "draft: " ++ (if dr then str "true" else str "false")) ::
        (str "time: " ++ formatTime1 tm) :: FrontMatterSep :: body from rfl]
  simp only [ParseFrontMatter]
  rw [if_pos trivial, hc]
  dsimp only
  rw [fromMap_serialized ct dr T tm hT hv]

/-! ## Macro functions (funcs.go / plugin.go) -/

/-- The literal usage examples in the `Gist` error (funcs.go). -/
def gistUsageExamples : Str :=
  str "\x7b\x7b Gist \"user/123abcdef\" \x7d\x7d\n\x7b\x7b Gist \"user/123abcdef\" \"foo.rb\" \x7d\x7d\n\x7b\x7b Gist \"123abcedef\" \x7d\x7d\n\x7b\x7b Gist \"123abcedef\" \"bar.rb\" \x7d\x7d"

/-- The full `Gist: invalid arguments` error message. -/
def gistErrMsg : Str := str "Gist: invalid arguments\nvalid examples:\n" ++ gistUsageExamples

/-- `url.QueryEscape` on ASCII text: alphanumerics and `-_.~` are kept,
space becomes `+`, every other byte becomes `%XX` in uppercase hex (the
corpus only passes ASCII file names). -/
def hexUpper (n : Nat) : Char :=
  if n < 10 then digitChar n else Char.ofNat ('A'.toNat + (n - 10))

def shouldEscape (c : Char) : Bool :=
  !(c.isAlphanum || c = '-' || c = '_' || c = '.' || c = '~')

def queryEscape (s : Str) : Str :=
  (s.map fun c =>
    if c = ' ' then ['+']
    else if shouldEscape c then ['%', hexUpper (c.toNat / 16), hexUpper (c.toNat % 16)]
    else [c]).flatten

/-- `url.Values{"file": {name}}.Encode()`: a single key encodes as
`file=` followed by the query-escaped value. -/
def urlValuesEncodeFile (name : Str) : Str := str "file=" ++ queryEscape name

/-- The `Gist` macro function (funcs.go; plugin.go carries an identical
copy whose usage examples embed a different sample gist id): one
argument embeds the gist by id, two arguments embed one named file of
the gist, anything else is an error carrying the usage examples. -/
def gistFn (v : List Str) : Except Str Str :=
  match v with
  | [gid] =>
    .ok (str "<script src=\"https://gist.github.com/" ++ gid ++ str ".js\"></script>")
  | [gid, fname] =>
    .ok (str "<script src=\"https://gist.github.com/" ++ gid
      ++ str ".js?" ++ urlValuesEncodeFile fname ++ str "\"></script>")
  | _ => .error gistErrMsg

/-- The plugin function table type (`text/template.FuncMap`). -/
abbrev FuncMap := List (Str × (List Str → Except Str Str))

/-- `plugins` (plugin.go): the macro table the build applies to
markdown files. -/
def plugins : FuncMap := [(str "Gist", gistFn)]

/-- A parsed macro-template body: literal text interleaved with calls
of named functions on string arguments (the `text/template` view of a
document's text). -/
inductive Seg where
  | lit (s : Str)
  | call (fn : Str) (args : List Str)
  deriving DecidableEq, Repr

def lookupFn : FuncMap → Str → Option (List Str → Except Str Str)
  | [], _ => none
  | (k, f) :: rest, n => if k = n then some f else lookupFn rest n

/-- Evaluate one template node: literals pass through; a call looks the
name up in the function table (an unknown name is a template error) and
applies it to the arguments. -/
def evalSeg (fns : FuncMap) : Seg → Except Str Str
  | .lit s => .ok s
  | .call fn args =>
    match lookupFn fns fn with
    | some f => f args
    | none => .error (str "function " ++ fn ++ str " not defined")

/-- Template execution over the parsed body: concatenate node results;
the first failing node aborts the document's render with its error. -/
def expandBody (fns : FuncMap) : List Seg → Except Str Str
  | [] => .ok []
  | s :: rest =>
    match evalSeg fns s with
    | .error e => .error e
    | .ok a =>
      match expandBody fns rest with
      | .error e => .error e
      | .ok b => .ok (a ++ b)

theorem expandBody_error (fns : FuncMap) (body : List Seg)
    (h : ∃ s ∈ body, ∃ e, evalSeg fns s = .error e) :
    ∃ e, expandBody fns body = .error e := by
  induction body with
  | nil =>
    obtain ⟨s, hs, _⟩ := h
    cases hs
  | cons s rest ih =>
    obtain ⟨s', hs', e', he'⟩ := h
    cases hev : evalSeg fns s with
    | error e0 => exact ⟨e0, by simp [expandBody, hev]⟩
    | ok a =>
      rcases List.mem_cons.mp hs' with rfl | hmem
      · rw [hev] at he'
        cases he'
      · obtain ⟨e1, he1⟩ := ih ⟨s', hmem, e', he'⟩
        exact ⟨e1, by simp [expandBody, hev, he1]⟩

/-! ## Pages and the two-phase build (frontmatter.go, final iteration) -/

/-- One entry yielded by `filepath.Walk` over the `src` tree: the path
relative to the walk root as a list of segments, whether it is a
directory, the file's modification time, and for files the contents,
given both as raw lines (read by the front-matter parser) and as the
parsed template body (read by the macro expander); both views are of
the same bytes.  Entries arrive in the walk's lexical order. -/
structure WalkEntry where
  relPath : List Str
  isDir : Bool
  modTime : GoTime
  rawLines : List Str
  body : List Seg

/-- `info.Name()`: the last path segment. -/
def entryName (e : WalkEntry) : Str := e.relPath.getLastD []

/-- `filepath.Dir` of the relative path: all but the last segment. -/
def dirOf (e : WalkEntry) : List Str := e.relPath.dropLast

/-- `filepath.Ext`: the suffix of the last segment from the final dot
(dot included), or empty when the segment has no dot. -/
def extOf (seg : Str) : Str :=
  if '.' ∈ seg then '.' :: (seg.reverse.takeWhile (fun c => c ≠ '.')).reverse else []

/-- `stripExt` applied to the last segment of a path. -/
def stripExtSeg (seg : Str) : Str :=
  if '.' ∈ seg then ((seg.reverse.dropWhile (fun c => c ≠ '.')).tail).reverse else seg

def stripExtPath (p : List Str) : List Str :=
  match p with
  | [] => []
  | _ => p.dropLast ++ [stripExtSeg (p.getLastD [])]

/-- `MarkdownExts`: the extensions considered markdown files. -/
def MarkdownExts : List Str := [str ".md", str ".markdown"]

def isMarkdownFile (e : WalkEntry) : Bool :=
  !e.isDir && decide (extOf (entryName e) ∈ MarkdownExts)

/-- `Page` (frontmatter.go): rendered content, title, timestamp, HTTP
path. -/
structure Page where
  Content : Str
  Title : Str
  Time : GoTime
  Path : Str
  deriving DecidableEq, Repr

/-- Join path segments with forward slashes (`path.Join` ∘
`filepath.ToSlash` on an already-clean relative path). -/
def joinSlash : List Str → Str
  | [] => []
  | [s] => s
  | s :: rest => s ++ '/' :: joinSlash rest

/-- `page.Path = "/" + path.Join(filepath.ToSlash(stripExt(rel)))`. -/
def pagePath (e : WalkEntry) : Str := '/' :: joinSlash (stripExtPath e.relPath)

/-- External collaborator: the blackfriday markdown transform, a pure
bytes-to-markup function; the claims never inspect rendered markup, so
its exact value is irrelevant and it is modelled as the identity. -/
def renderMarkdown (s : Str) : Str := s

def dropThroughSep : List Str → List Str
  | [] => []
  | l :: ls => if l = str "+++" then ls else dropThroughSep ls

def splitLines : Str → List Str
  | [] => [[]]
  | c :: cs =>
    if c = '\n' then [] :: splitLines cs
    else
      match splitLines cs with
      | [] => [[c]]
      | l :: ls => (c :: l) :: ls

def joinLines : List Str → Str
  | [] => []
  | [l] => l
  | l :: ls => l ++ '\n' :: joinLines ls

/-- Modelled from the spec: `stripFrontMatter` is not under src (only
its test and callers are); per the test it removes a leading
`+++`-delimited metadata block, delimiters included, and returns any
other input unchanged. -/
def stripFrontMatterText (s : Str) : Str :=
  match splitLines s with
  | first :: rest => if first = str "+++" then joinLines (dropThroughSep rest) else s
  | [] => s

/-- The build-scoped error union reported by `makePages`/`Run`. -/
inductive BuildErr where
  | tmplErr (msg : Str)
  | fmErr (e : FMErr)
  | layoutErr (dir : List Str)
  | htmlErr (p : List Str)
  deriving DecidableEq, Repr

/-- The per-document goroutine of `Build.makePages`: expand the macro
template over the raw bytes (the inner goroutine), parse the front
matter from the same bytes, drop drafts (`return` before the page is
published), and otherwise publish the directory key and the finished
`Page`; a missing metadata block falls back to the file's name and
modification time.  Errors are the messages sent on the results
channel.  (In Go a document whose macro expansion fails still
publishes its page from the main goroutine before the drain loop
discards everything; only the error is modelled, since the failing
build's partial state is unobservable — `Run` returns the error before
phase 2.) -/
def renderDoc (fns : FuncMap) (ct : GoTime) (e : WalkEntry) :
    Except BuildErr (Option (List Str × Page)) :=
  match expandBody fns e.body with
  | .error m => .error (.tmplErr m)
  | .ok expanded =>
    match fmParse ct e.rawLines with
    | .error err =>
      if err = .noFrontMatter then
        .ok (some (dirOf e,
          ⟨renderMarkdown (stripFrontMatterText expanded),
           entryName e, e.modTime, pagePath e⟩))
      else .error (.fmErr err)
    | .ok fm =>
      if fm.Draft then .ok none
      else
        .ok (some (dirOf e,
          ⟨renderMarkdown (stripFrontMatterText expanded),
           fm.Title, fm.Time, pagePath e⟩))

/-- The entries `makePages` dispatches workers for: non-directory
entries with a markdown extension, in walk order. -/
def walkDocs (entries : List WalkEntry) : List WalkEntry :=
  entries.filter isMarkdownFile

/-- The messages of one `makePages` run on its results channel, in
arrival order (the model uses the spawning walk's order; drafts send
nothing). -/
def pageResults (fns : FuncMap) (ct : GoTime) (entries : List WalkEntry) :
    List (Except BuildErr (List Str × Page)) :=
  (walkDocs entries).filterMap fun e =>
    match renderDoc fns ct e with
    | .ok none => none
    | .ok (some r) => some (.ok r)
    | .error er => some (.error er)

/-- The drain loop of `makePages`: `if r.Err != nil { err = r.Err }`
overwrites on every error, so the loop keeps the most recent error
received on the channel. -/
def collectLastErr (rs : List (Except BuildErr (List Str × Page))) : Option BuildErr :=
  rs.foldl (fun acc r => match r with | .error e => some e | .ok _ => acc) none

/-- The `pages` index of `makePages` (`pages[p] = page`, written under
the mutex before the result is sent), keyed here by the entry's
source-relative path; a later write to the same key wins, as in a Go
map. -/
def pagesIndex (fns : FuncMap) (ct : GoTime) (entries : List WalkEntry)
    (p : List Str) : Option Page :=
  ((walkDocs entries).filterMap fun e =>
    match renderDoc fns ct e with
    | .ok (some (_, pg)) => if e.relPath = p then some pg else none
    | _ => none).getLast?

/-- The group accumulation of the drain loop
(`all[r.Dir] = append(all[r.Dir], r.Page)`) as the per-directory list
in arrival order.  (For error results Go appends the nil page under the
empty key, observable only in builds that already fail; error results
contribute nothing here.) -/
def dirGroups (fns : FuncMap) (ct : GoTime) (entries : List WalkEntry)
    (d : List Str) : List Page :=
  (pageResults fns ct entries).filterMap fun r =>
    match r with
    | .ok (d', pg) => if d' = d then some pg else none
    | .error _ => none

/-- `ByTime.Less` (frontmatter.go): `!a[i].Time.Before(a[j].Time)`,
i.e. reverse chronological order. -/
def byTimeLe (a b : Page) : Prop := ¬ (a.Time.instant < b.Time.instant)

instance : DecidableRel byTimeLe := fun a b =>
  inferInstanceAs (Decidable ¬(a.Time.instant < b.Time.instant))

instance : IsTotal Page byTimeLe :=
  ⟨fun a b => by unfold byTimeLe; omega⟩

instance : IsTrans Page byTimeLe :=
  ⟨fun a b c => by unfold byTimeLe; omega⟩

/-- `sort.Sort(ByTime(all[k]))`: a comparison sort under `ByTime.Less`,
modelled by insertion sort; on the distinct timestamps the claims
quantify over, every correct comparison sort returns this unique
result. -/
def sortByTime (l : List Page) : List Page := List.insertionSort byTimeLe l

/-- The error result of `Build.makePages`: the drain loop's last
recorded error. -/
def makePagesErr (fns : FuncMap) (ct : GoTime) (entries : List WalkEntry) :
    Option BuildErr :=
  collectLastErr (pageResults fns ct entries)

/-- The per-directory collections (`all`) returned by `makePages`,
sorted reverse-chronologically. -/
def makePagesCols (fns : FuncMap) (ct : GoTime) (entries : List WalkEntry)
    (d : List Str) : List Page :=
  sortByTime (dirGroups fns ct entries d)

/-! ## Phase 2 of `Build.Run` (tree materialization) -/

/-- The extensions `minifyFuncs` covers. -/
def minifyExts : List Str := [str ".css", str ".js", str ".svg"]

/-- The conventional layout file of an entry's directory. -/
def layoutPathOf (e : WalkEntry) : List Str := dirOf e ++ [str "layout.tmpl"]

/-- The output file an entry's phase-2 goroutine creates, per `Run`'s
switch (checked in source order): directories and `layout.tmpl` are
skipped; minifiable extensions are minified to the mirrored path;
markdown files render through the directory's layout into
`<path-without-ext>/index.html` (the file is created before the layout
template is executed, so execution failures leave the file in place);
other `.html` files execute as stand-alone templates to the mirrored
path; everything else is copied byte for byte.  `tmplOk` is the
external template engine's parse verdict for the template source at a
given source-relative path. -/
def phase2Out (tmplOk : List Str → Bool) (e : WalkEntry) : Option (List Str) :=
  if e.isDir || entryName e = str "layout.tmpl" then none
  else if extOf (entryName e) ∈ minifyExts then some (str "build" :: e.relPath)
  else if extOf (entryName e) ∈ MarkdownExts then
    if tmplOk (layoutPathOf e) then
      some (str "build" :: (stripExtPath e.relPath ++ [str "index.html"]))
    else none
  else if extOf (entryName e) = str ".html" then
    if tmplOk e.relPath then some (str "build" :: e.relPath) else none
  else some (str "build" :: e.relPath)

/-- The error message (if any) an entry's phase-2 goroutine sends on
the error channel. -/
def phase2Err (tmplOk : List Str → Bool) (e : WalkEntry) : Option BuildErr :=
  if e.isDir || entryName e = str "layout.tmpl" then none
  else if extOf (entryName e) ∈ minifyExts then none
  else if extOf (entryName e) ∈ MarkdownExts then
    if tmplOk (layoutPathOf e) then none else some (.layoutErr (dirOf e))
  else if extOf (entryName e) = str ".html" then
    if tmplOk e.relPath then none else some (.htmlErr e.relPath)
  else none

/-- The phase-2 drain loop of `Build.Run`
(`for err := range errs { if err != nil { return err } }`): the first
non-nil error received is returned; the rest of the channel is
abandoned. -/
def firstErr : List (Option BuildErr) → Option BuildErr
  | [] => none
  | some e :: _ => some e
  | none :: rest => firstErr rest

/-- The error `Build.Run` returns: phase 1's (makePages') error when
there is one — phase 2 then never starts — else the first error
received on the phase-2 channel. -/
def runErr (fns : FuncMap) (ct : GoTime) (tmplOk : List Str → Bool)
    (entries : List WalkEntry) : Option BuildErr :=
  match makePagesErr fns ct entries with
  | some e => some e
  | none => firstErr (entries.map (phase2Err tmplOk))

/-- The output files a build materializes under `build/`: none at all
when phase 1 fails (Run returns before walking for phase 2); otherwise
every non-skipped entry's target, created whether or not its template
execution later succeeds. -/
def runOutputs (fns : FuncMap) (ct : GoTime) (tmplOk : List Str → Bool)
    (entries : List WalkEntry) : List (List Str) :=
  match makePagesErr fns ct entries with
  | some _ => []
  | none => entries.filterMap (phase2Out tmplOk)

/-! ## The once-computed build timestamp (main.go) -/

/-- One call of the `sync.Once`-guarded `currentTime` (main.go): the
first call stores the clock reading; every later call returns the
stored value unchanged. -/
def currentTimeCall (now : GoTime) : Option GoTime → GoTime × Option GoTime
  | none => (now, some now)
  | some t => (t, some t)

/-- The values successive `currentTime()` calls return, given the clock
reading each call would capture were it the first, threading the
once-cell state. -/
def currentTimeSeq : List GoTime → Option GoTime → List GoTime
  | [], _ => []
  | now :: rest, st =>
    ((currentTimeCall now st).1) :: currentTimeSeq rest (currentTimeCall now st).2

/-! ## The layout-cache access trace (Run, markdown case) -/

/-- The shared-cache operations in `Build.Run`'s markdown branch. -/
inductive CacheOp where
  | cacheRead
  | compileTemplate
  | lockAcquire
  | cacheWrite
  | lockRelease
  deriving DecidableEq, Repr

/-- The straight-line trace of one goroutine's layout-cache access on a
cache miss, in source order: the map read `dirLayout.m[filepath.Dir(p)]`
happens before `dirLayout.Lock()`; only the insert sits between `Lock`
and `Unlock`. -/
def cacheMissTrace : List CacheOp :=
  [.cacheRead, .compileTemplate, .lockAcquire, .cacheWrite, .lockRelease]

/-- Whether the event at index `i` of a trace executes with the lock
held: the acquires before `i` outnumber the releases before `i`. -/
def underLock (tr : List CacheOp) (i : Nat) : Bool :=
  (tr.take i).count .lockRelease < (tr.take i).count .lockAcquire

/-! ## Sorting facts for the collections -/

/-- Strictly more recent: the strict part of `ByTime`'s order. -/
def byTimeGt (a b : Page) : Prop := b.Time.instant < a.Time.instant

instance : IsTrans Page byTimeGt :=
  ⟨fun a b c h1 h2 => by unfold byTimeGt at *; omega⟩

instance : IsAntisymm Page byTimeGt :=
  ⟨fun a b h1 h2 => absurd h1 (by unfold byTimeGt at *; omega)⟩

instance : DecidableRel byTimeGt := fun a b =>
  inferInstanceAs (Decidable (b.Time.instant < a.Time.instant))

/-- On a list whose timestamps are strictly decreasing in some
permutation, the `ByTime` sort returns exactly that permutation. -/
theorem sortByTime_unique (G expected : List Page)
    (hperm : expected.Perm G)
    (hchain : expected.Chain' byTimeGt) :
    sortByTime G = expected := by
  have hpw : expected.Pairwise byTimeGt := List.chain'_iff_pairwise.mp hchain
  have hperm2 : (sortByTime G).Perm expected :=
    (List.perm_insertionSort byTimeLe G).trans hperm.symm
  have hle : (sortByTime G).Pairwise byTimeLe := List.sorted_insertionSort byTimeLe G
  have hne_exp : expected.Pairwise (fun a b => a.Time.instant ≠ b.Time.instant) :=
    hpw.imp (fun h => by unfold byTimeGt at h; omega)
  have hne : (sortByTime G).Pairwise (fun a b => a.Time.instant ≠ b.Time.instant) :=
    (hperm2.pairwise_iff (fun h => Ne.symm h)).mpr hne_exp
  have hgt : (sortByTime G).Pairwise byTimeGt :=
    (hle.and hne).imp (fun h => by
      unfold byTimeLe byTimeGt at *
      omega)
  exact List.eq_of_perm_of_sorted hperm2 hgt hpw

/-! ## Drain-loop characterizations -/

/-- The error (if any) carried by a results-channel message. -/
def errOf (r : Except BuildErr (List Str × Page)) : Option BuildErr :=
  match r with
  | .error e => some e
  | .ok _ => none

theorem collectLastErr_aux (rs : List (Except BuildErr (List Str × Page))) :
    ∀ acc : Option BuildErr,
      rs.foldl (fun acc r => match r with | .error e => some e | .ok _ => acc) acc
        = ((rs.filterMap errOf).getLast?).or acc := by
  induction rs with
  | nil => intro acc; rfl
  | cons r rs ih =>
    intro acc
    cases r with
    | error e =>
      rw [List.foldl_cons]
      dsimp only
      rw [ih (some e)]
      rcases h : rs.filterMap errOf with _ | ⟨x, xs⟩
      · simp [errOf, List.filterMap_cons, h]
      · simp [errOf, List.filterMap_cons, h, List.getLast?_cons]
    | ok v =>
      rw [List.foldl_cons]
      dsimp only
      rw [ih acc]
      simp [errOf, List.filterMap_cons]

/-- The phase-1 drain loop returns the **last** error on the channel. -/
theorem collectLastErr_eq_getLast (rs : List (Except BuildErr (List Str × Page))) :
    collectLastErr rs = (rs.filterMap errOf).getLast? := by
  unfold collectLastErr
  rw [collectLastErr_aux rs none]
  cases (rs.filterMap errOf).getLast? <;> rfl

/-- The phase-2 drain loop returns the **first** error on the channel. -/
theorem firstErr_eq_head (es : List (Option BuildErr)) :
    firstErr es = (es.filterMap id).head? := by
  induction es with
  | nil => rfl
  | cons e es ih =>
    cases e with
    | none => simpa [firstErr, List.filterMap_cons] using ih
    | some x => simp [firstErr, List.filterMap_cons]

/-! ## Facts about the per-document render -/

/-- A draft document never publishes a page: the worker returns before
the page is indexed or sent. -/
theorem renderDoc_draft_not_some (fns : FuncMap) (ct : GoTime) (e : WalkEntry)
    (fm : FrontMatter) (r : List Str × Page)
    (hfm : fmParse ct e.rawLines = .ok fm) (hd : fm.Draft = true) :
    renderDoc fns ct e ≠ .ok (some r) := by
  unfold renderDoc
  rw [hfm]
  cases hex : expandBody fns e.body with
  | error m => simp
  | ok expanded => simp [hd]

/-- A published page records its entry's directory key and HTTP path. -/
theorem renderDoc_some_shape (fns : FuncMap) (ct : GoTime) (e : WalkEntry)
    (d : List Str) (pg : Page)
    (h : renderDoc fns ct e = .ok (some (d, pg))) :
    d = dirOf e ∧ pg.Path = pagePath e := by
  unfold renderDoc at h
  split at h
  · simp at h
  · split at h
    · split at h
      · simp only [Except.ok.injEq, Option.some.injEq, Prod.mk.injEq] at h
        obtain ⟨hd', hp⟩ := h
        exact ⟨hd'.symm, by rw [← hp]⟩
      · simp at h
    · split at h
      · simp at h
      · simp only [Except.ok.injEq, Option.some.injEq, Prod.mk.injEq] at h
        obtain ⟨hd', hp⟩ := h
        exact ⟨hd'.symm, by rw [← hp]⟩

/-- A markdown document without a metadata block renders to a page
carrying the file's name as title and its modification time as
timestamp. -/
theorem renderDoc_no_front_matter (fns : FuncMap) (ct : GoTime) (e : WalkEntry)
    (expanded : Str)
    (hex : expandBody fns e.body = .ok expanded)
    (hno : fmParse ct e.rawLines = .error .noFrontMatter) :
    renderDoc fns ct e = .ok (some (dirOf e,
      ⟨renderMarkdown (stripFrontMatterText expanded),
       entryName e, e.modTime, pagePath e⟩)) := by
  unfold renderDoc
  rw [hex, hno]
  simp

theorem isMarkdownFile_spec (e : WalkEntry) (h : isMarkdownFile e = true) :
    e.isDir = false ∧ extOf (entryName e) ∈ MarkdownExts := by
  unfold isMarkdownFile at h
  simp only [Bool.and_eq_true, Bool.not_eq_true', decide_eq_true_eq] at h
  exact h

theorem markdown_not_layout (e : WalkEntry) (h : extOf (entryName e) ∈ MarkdownExts) :
    entryName e ≠ str "layout.tmpl" := by
  intro hn
  rw [hn] at h
  revert h
  decide

theorem markdown_not_minify (e : WalkEntry) (h : extOf (entryName e) ∈ MarkdownExts) :
    extOf (entryName e) ∉ minifyExts := by
  intro hmin
  unfold MarkdownExts at h
  rcases List.mem_cons.mp h with heq | h2
  · rw [heq] at hmin
    revert hmin
    decide
  · rcases List.mem_cons.mp h2 with heq | h3
    · rw [heq] at hmin
      revert hmin
      decide
    · cases h3

/-- A markdown entry with a parsable layout materializes
`build/<path-without-ext>/index.html`. -/
theorem phase2Out_markdown (tmplOk : List Str → Bool) (e : WalkEntry)
    (hdir : e.isDir = false) (hmem : extOf (entryName e) ∈ MarkdownExts)
    (htok : tmplOk (layoutPathOf e) = true) :
    phase2Out tmplOk e
      = some (str "build" :: (stripExtPath e.relPath ++ [str "index.html"])) := by
  unfold phase2Out
  rw [if_neg (by simp [hdir, markdown_not_layout e hmem]),
    if_neg (markdown_not_minify e hmem), if_pos hmem, if_pos htok]

/-! ## Further facts about `fromMap` and the loops -/

/-- With a valid draft value, `fromMap` proceeds to the title/time
assignments with the corresponding flag. -/
theorem fromMap_eq_finish (ct : GoTime) (m : Meta)
    (hdr : m (str "draft") = [] ∨ m (str "draft") = str "true" ∨ m (str "draft") = str "false") :
    ∃ dr, fromMap ct m = fromMapFinish ct m dr := by
  unfold fromMap
  rcases hdr with h | h | h
  · rw [h, if_neg (by decide), if_neg (by decide)]
    exact ⟨false, rfl⟩
  · rw [h, if_pos rfl]
    exact ⟨true, rfl⟩
  · rw [h, if_neg (by decide), if_neg (by decide)]
    exact ⟨false, rfl⟩

/-- A document whose metadata lacks a `time` value is stamped with the
build's current time `ct`. -/
theorem fromMap_no_time (ct : GoTime) (m : Meta) (fm : FrontMatter)
    (hne : m (str "time") = []) (h : fromMap ct m = .ok fm) :
    fm.Time = ct := by
  unfold fromMap fromMapFinish at h
  rw [hne] at h
  split at h
  · rw [if_pos rfl] at h
    injection h with h2
    rw [← h2]
  · split at h
    · cases h
    · rw [if_pos rfl] at h
      injection h with h2
      rw [← h2]

/-- After the first call captured a clock reading, every later call
returns it unchanged. -/
theorem currentTimeSeq_captured (nows : List GoTime) (t : GoTime) :
    currentTimeSeq nows (some t) = nows.map (fun _ => t) := by
  induction nows with
  | nil => rfl
  | cons n rest ih => simp [currentTimeSeq, currentTimeCall, ih]

/-- The spec-side fold that treats **every** line as a metadata line. -/
def foldKV (m : Meta) (ls : List Str) : Meta :=
  ls.foldl (fun m l =>
    match splitOnce ':' l with
    | some (k, v) => metaUpdate m (trimSpace k) (trimSpace v)
    | none => m) m

/-- When the closing delimiter never occurs and every line splits, the
scan loop consumes the whole input as metadata. -/
theorem collectMeta_no_sep (ls : List Str) : ∀ m : Meta,
    FrontMatterSep ∉ ls → (∀ l ∈ ls, (splitOnce ':' l).isSome) →
    collectMeta m ls = .ok (foldKV m ls) := by
  induction ls with
  | nil => intro m _ _; rfl
  | cons l ls ih =>
    intro m hns hsp
    have hl : l ≠ FrontMatterSep := fun h => hns (h ▸ List.mem_cons_self l ls)
    have hspl : (splitOnce ':' l).isSome := hsp l (List.mem_cons_self l ls)
    unfold collectMeta
    rw [if_neg hl]
    cases hs : splitOnce ':' l with
    | none => rw [hs] at hspl; cases hspl
    | some kv =>
      obtain ⟨k, v⟩ := kv
      dsimp only
      rw [ih _ (fun h => hns (List.mem_cons_of_mem l h))
        (fun l2 h2 => hsp l2 (List.mem_cons_of_mem l h2))]
      have hfold : foldKV m (l :: ls)
          = foldKV (metaUpdate m (trimSpace k) (trimSpace v)) ls := by
        unfold foldKV
        rw [List.foldl_cons, hs]
      rw [hfold]

/-- A channel that carried at least one error never drains to `none`. -/
theorem collectLastErr_ne_none (rs : List (Except BuildErr (List Str × Page)))
    (r : Except BuildErr (List Str × Page)) (hr : r ∈ rs) (e : BuildErr)
    (he : r = .error e) : collectLastErr rs ≠ none := by
  rw [collectLastErr_eq_getLast]
  have hmem : e ∈ rs.filterMap errOf :=
    List.mem_filterMap.mpr ⟨r, hr, by rw [he]; rfl⟩
  intro hnone
  rcases hl : rs.filterMap errOf with _ | ⟨x, xs⟩
  · rw [hl] at hmem
    cases hmem
  · rw [hl] at hnone
    rw [List.getLast?_cons] at hnone
    cases hnone

/-- With a non-empty time value, the title/time step resolves it by the
ordered first-match rule over `knownTimeFormats`. -/
theorem fromMapFinish_spec (ct : GoTime) (m : Meta) (dr : Bool)
    (hne : m (str "time") ≠ []) :
    fromMapFinish ct m dr =
      ((knownTimeFormats.findSome? fun f => goTimeParse f (m (str "time"))).elim
        (Except.error (.invalid (str "time") (m (str "time")) knownTimeFormats))
        (fun t => Except.ok ⟨dr, m (str "title"), t⟩)) := by
  unfold fromMapFinish
  rw [if_neg hne, tryFormats_eq_findSome]
  cases knownTimeFormats.findSome? fun f => goTimeParse f (m (str "time")) <;> rfl

/-- A failing macro call in any markdown document aborts phase 1: the
build reports an error and phase 2 never materializes anything. -/
theorem build_aborts_on_macro_error (fns : FuncMap) (ct : GoTime)
    (tmplOk : List Str → Bool) (entries : List WalkEntry) (e : WalkEntry)
    (he : e ∈ entries) (hmd : isMarkdownFile e = true)
    (herr : ∃ s ∈ e.body, ∃ msg, evalSeg fns s = .error msg) :
    makePagesErr fns ct entries ≠ none
    ∧ runOutputs fns ct tmplOk entries = []
    ∧ runErr fns ct tmplOk entries ≠ none := by
  obtain ⟨msg, hmsg⟩ := expandBody_error fns e.body herr
  have hrd : renderDoc fns ct e = .error (.tmplErr msg) := by
    unfold renderDoc
    rw [hmsg]
  have hwe : e ∈ walkDocs entries := List.mem_filter.mpr ⟨he, hmd⟩
  have hmem : (Except.error (.tmplErr msg) : Except BuildErr (List Str × Page))
      ∈ pageResults fns ct entries :=
    List.mem_filterMap.mpr ⟨e, hwe, by rw [hrd]⟩
  have hne : makePagesErr fns ct entries ≠ none :=
    collectLastErr_ne_none _ _ hmem _ rfl
  refine ⟨hne, ?_, ?_⟩
  · unfold runOutputs
    cases h : makePagesErr fns ct entries
    · exact absurd h hne
    · rfl
  · unfold runErr
    cases h : makePagesErr fns ct entries
    · exact absurd h hne
    · simp

/-! ## Concrete fixtures for witnesses and counterexamples -/

/-- A sample build timestamp. -/
def ct0 : GoTime := ⟨2020, 5, 6, 7, 8, 9, 0⟩

/-- A world in which every template source parses (layouts present
everywhere). -/
def allTmplOk : List Str → Bool := fun _ => true

/-- A markdown entry in `blog/` with the given name and raw lines. -/
def mkDoc (name : String) (lines : List String) : WalkEntry :=
  { relPath := [str "blog", str name]
    isDir := false
    modTime := ⟨2019, 1, 1, 0, 0, 0, 0⟩
    rawLines := lines.map str
    body := [Seg.lit (str "text")] }

def docA : WalkEntry := mkDoc "a.md" ["---", "title: A", "time: 2020-01-02", "---"]

def docB : WalkEntry := mkDoc "b.md" ["---", "title: B", "time: 2020-01-03", "---"]

def docDraft : WalkEntry := mkDoc "d.md" ["---", "draft: true", "---"]

def docNoFM : WalkEntry := mkDoc "n.md" ["# hello"]

def badDocA : WalkEntry :=
  { mkDoc "x.md" ["# x"] with body := [Seg.call (str "FnA") []] }

def badDocB : WalkEntry :=
  { mkDoc "y.md" ["# y"] with body := [Seg.call (str "FnB") []] }

def gistDoc : WalkEntry :=
  { mkDoc "g.md" ["# g"] with body := [Seg.call (str "Gist") []] }

def pageA : Page := ⟨str "text", str "A", ⟨2020, 1, 2, 0, 0, 0, 0⟩, str "/blog/a"⟩

def pageB : Page := ⟨str "text", str "B", ⟨2020, 1, 3, 0, 0, 0, 0⟩, str "/blog/b"⟩

def errFnA : BuildErr := .tmplErr (str "function FnA not defined")

def errFnB : BuildErr := .tmplErr (str "function FnB not defined")

instance exceptDecEq {ε α : Type} [DecidableEq ε] [DecidableEq α] :
    DecidableEq (Except ε α) := fun a b =>
  match a, b with
  | .error x, .error y =>
    if h : x = y then isTrue (congrArg Except.error h)
    else isFalse (fun hh => h (Except.error.inj hh))
  | .ok x, .ok y =>
    if h : x = y then isTrue (congrArg Except.ok h)
    else isFalse (fun hh => h (Except.ok.inj hh))
  | .error _, .ok _ => isFalse (fun hh => Except.noConfusion hh)
  | .ok _, .error _ => isFalse (fun hh => Except.noConfusion hh)

/-! ## The claims -/

/-- C1: for every directory, the Collection built by the
page-aggregation step (`makePages`) contains exactly that directory's
non-draft documents sorted by timestamp descending: whenever a listing
`expected` of the pages that arrived for a directory has strictly
decreasing timestamps t1 > t2 > ... > tN, the directory's Collection is
exactly that listing, most recent first. -/
theorem claim_C1_collection_sorted (fns : FuncMap) (ct : GoTime)
    (entries : List WalkEntry) (d : List Str) (expected : List Page)
    (hperm : expected.Perm (dirGroups fns ct entries d))
    (hchain : expected.Chain' byTimeGt) :
    makePagesCols fns ct entries d = expected :=
  sortByTime_unique (dirGroups fns ct entries d) expected hperm hchain

/-- Witness for C1: two documents in `blog/` arriving oldest-first are
collected most-recent-first. -/
theorem claim_C1_witness :
    [pageB, pageA].Perm (dirGroups plugins ct0 [docA, docB] [str "blog"])
    ∧ List.Chain' byTimeGt [pageB, pageA]
    ∧ makePagesCols plugins ct0 [docA, docB] [str "blog"] = [pageB, pageA] := by
  have hp : [pageB, pageA].Perm (dirGroups plugins ct0 [docA, docB] [str "blog"]) := by
    decide
  have hc : List.Chain' byTimeGt [pageB, pageA] := by
    rw [List.chain'_cons]
    exact ⟨by decide, List.chain'_singleton _⟩
  exact ⟨hp, hc, claim_C1_collection_sorted plugins ct0 [docA, docB] [str "blog"]
    [pageB, pageA] hp hc⟩

/-- Counterexample to C3 as stated: with two failing documents whose
errors arrive in order `[errFnA, errFnB]`, the build returns `errFnB`,
the last error recorded on the channel, not the first. -/
theorem claim_C3_counterexample :
    pageResults plugins ct0 [badDocA, badDocB] = [.error errFnA, .error errFnB]
    ∧ runErr plugins ct0 allTmplOk [badDocA, badDocB] = some errFnB
    ∧ errFnB ≠ errFnA := by
  decide

/-- C3 (amended): when concurrent work units fail, `Build.Run` reports
phase 1's aggregation as the **last** error received on the results
channel (the drain loop overwrites on every error); only the phase-2
drain loop returns the **first** error received, abandoning the rest of
the channel; a phase-1 error becomes the build's outcome unchanged. -/
theorem claim_C3_amended (rs : List (Except BuildErr (List Str × Page)))
    (es : List (Option BuildErr)) (fns : FuncMap) (ct : GoTime)
    (tmplOk : List Str → Bool) (entries : List WalkEntry) (e : BuildErr)
    (h : makePagesErr fns ct entries = some e) :
    collectLastErr rs = (rs.filterMap errOf).getLast?
    ∧ firstErr es = (es.filterMap id).head?
    ∧ runErr fns ct tmplOk entries = some e := by
  refine ⟨collectLastErr_eq_getLast rs, firstErr_eq_head es, ?_⟩
  unfold runErr
  rw [h]

/-- Witness for C3 (amended) at the two-failure build. -/
theorem claim_C3_amended_witness :
    collectLastErr [.error errFnA, .error errFnB]
      = ([Except.error errFnA, Except.error errFnB].filterMap errOf).getLast?
    ∧ firstErr [some errFnA, some errFnB]
      = ([some errFnA, some errFnB].filterMap id).head?
    ∧ runErr plugins ct0 allTmplOk [badDocA, badDocB] = some errFnB :=
  claim_C3_amended [.error errFnA, .error errFnB] [some errFnA, some errFnB]
    plugins ct0 allTmplOk [badDocA, badDocB] errFnB (by decide)

/-- Counterexample to C4 as stated: quoting is not transparent to the
parser — a quoted title keeps its quotes and so parses to a different
field value than its unquoted form, and a quoted time value is
rejected. -/
theorem claim_C4_counterexample :
    (ParseFrontMatter ct0 [str "---", str "title: \"A\"", str "---"]).fm.Title
      ≠ (ParseFrontMatter ct0 [str "---", str "title: A", str "---"]).fm.Title
    ∧ (ParseFrontMatter ct0 [str "---", str "time: \"2020-01-02\"", str "---"]).err ≠ none := by
  decide

/-- C4 (amended): for a document with a well-formed metadata block,
parsing and then re-serializing the fields (title/draft/time) in the
parser's own unquoted `key: value` format, concatenated with any body,
yields a document whose parse gives back the same effective field
values — independent of the original formatting, provided the parsed
time lies in the formattable range; quoted values, however, are taken
literally rather than unquoted. -/
theorem claim_C4_amended (ct : GoTime) (lines body : List Str) (fm : FrontMatter)
    (hp : ParseFrontMatter ct lines = ⟨fm, true, none⟩)
    (hv : ValidTime fm.Time) :
    ParseFrontMatter ct (serializeFrontMatter fm ++ body) = ⟨fm, true, none⟩ :=
  parse_serialize_roundtrip ct lines body fm hp hv

def linesC4 : List Str :=
  [str "---", str "title:   hello  ", str "time: 2016-08-28 23:44:02 -05:00", str "---"]

def fmC4 : FrontMatter := ⟨false, str "hello", ⟨2016, 8, 28, 23, 44, 2, -300⟩⟩

/-- Witness for C4 (amended) at a concrete document with extra
whitespace in the original formatting. -/
theorem claim_C4_amended_witness :
    ParseFrontMatter ct0 (serializeFrontMatter fmC4 ++ [str "body text"])
      = ⟨fmC4, true, none⟩ :=
  claim_C4_amended ct0 linesC4 [str "body text"] fmC4 (by decide) (by decide)

/-- C5: the metadata parser resolves a non-empty `time` value against
the ordered list of known formats, the first matching format winning; a
value matching none of them produces the error carrying the key `time`,
the offending value and the full list of accepted formats. -/
theorem claim_C5_time_formats (ct : GoTime) (m : Meta)
    (hne : m (str "time") ≠ [])
    (hdr : m (str "draft") = [] ∨ m (str "draft") = str "true"
      ∨ m (str "draft") = str "false") :
    (∀ t, (knownTimeFormats.findSome? fun f => goTimeParse f (m (str "time"))) = some t →
      ∃ fm, fromMap ct m = .ok fm ∧ fm.Time = t)
    ∧ ((knownTimeFormats.findSome? fun f => goTimeParse f (m (str "time"))) = none →
      fromMap ct m = .error (.invalid (str "time") (m (str "time")) knownTimeFormats)) := by
  obtain ⟨dr, hdr2⟩ := fromMap_eq_finish ct m hdr
  constructor
  · intro t ht
    refine ⟨⟨dr, m (str "title"), t⟩, ?_, rfl⟩
    rw [hdr2, fromMapFinish_spec ct m dr hne, ht]
    rfl
  · intro hnone
    rw [hdr2, fromMapFinish_spec ct m dr hne, hnone]
    rfl

def mTimeOk : Meta := metaUpdate metaEmpty (str "time") (str "2020-01-02")

def mTimeBad : Meta := metaUpdate metaEmpty (str "time") (str "notadate")

/-- Witness for C5 at a matching and a non-matching time value. -/
theorem claim_C5_witness :
    (∃ fm, fromMap ct0 mTimeOk = .ok fm ∧ fm.Time = ⟨2020, 1, 2, 0, 0, 0, 0⟩)
    ∧ fromMap ct0 mTimeBad
      = .error (.invalid (str "time") (str "notadate") knownTimeFormats) := by
  constructor
  · exact (claim_C5_time_formats ct0 mTimeOk (by decide) (Or.inl (by decide))).1 _ (by decide)
  · exact (claim_C5_time_formats ct0 mTimeBad (by decide) (Or.inl (by decide))).2 (by decide)

theorem gistFn_arity_error (args : List Str) (h1 : args.length ≠ 1) (h2 : args.length ≠ 2) :
    gistFn args = .error gistErrMsg := by
  match args with
  | [] => rfl
  | [a] => simp at h1
  | [a, b] => simp at h2
  | a :: b :: c :: rest => rfl

/-- C6: the `Gist` macro with exactly one argument returns the
script-embed fragment for the gist id; with exactly two arguments, the
fragment embedding the named file of the gist via the encoded `file`
query parameter; with any other argument count (zero included), the
error whose message carries the literal usage examples — and a build
whose tree contains a markdown document with such a failing call
reports an error while phase 2 writes no output file at all. -/
theorem claim_C6_gist (gid fname : Str) (args : List Str)
    (h1 : args.length ≠ 1) (h2 : args.length ≠ 2)
    (ct : GoTime) (tmplOk : List Str → Bool) (entries : List WalkEntry)
    (e : WalkEntry) (he : e ∈ entries) (hmd : isMarkdownFile e = true)
    (hcall : Seg.call (str "Gist") args ∈ e.body) :
    gistFn [gid] = .ok (str "<script src=\"https://gist.github.com/" ++ gid
      ++ str ".js\"></script>")
    ∧ gistFn [gid, fname] = .ok (str "<script src=\"https://gist.github.com/" ++ gid
      ++ str ".js?" ++ urlValuesEncodeFile fname ++ str "\"></script>")
    ∧ gistFn args = .error gistErrMsg
    ∧ gistErrMsg = str "Gist: invalid arguments\nvalid examples:\n" ++ gistUsageExamples
    ∧ runErr plugins ct tmplOk entries ≠ none
    ∧ runOutputs plugins ct tmplOk entries = [] := by
  have habort := build_aborts_on_macro_error plugins ct tmplOk entries e he hmd
    ⟨Seg.call (str "Gist") args, hcall, gistErrMsg,
      show evalSeg plugins (Seg.call (str "Gist") args) = .error gistErrMsg from
        gistFn_arity_error args h1 h2⟩
  exact ⟨rfl, rfl, gistFn_arity_error args h1 h2, rfl, habort.2.2, habort.2.1⟩

/-- Witness for C6: concrete embeds, the zero-argument error, and a
one-document build that aborts with no output. -/
theorem claim_C6_witness :
    gistFn [str "u"] = .ok (str "<script src=\"https://gist.github.com/" ++ str "u"
      ++ str ".js\"></script>")
    ∧ gistFn [str "u", str "a b"] = .ok (str "<script src=\"https://gist.github.com/"
      ++ str "u" ++ str ".js?" ++ urlValuesEncodeFile (str "a b") ++ str "\"></script>")
    ∧ gistFn [] = .error gistErrMsg
    ∧ gistErrMsg = str "Gist: invalid arguments\nvalid examples:\n" ++ gistUsageExamples
    ∧ runErr plugins ct0 allTmplOk [gistDoc] ≠ none
    ∧ runOutputs plugins ct0 allTmplOk [gistDoc] = [] :=
  claim_C6_gist (str "u") (str "a b") [] (by decide) (by decide) ct0 allTmplOk
    [gistDoc] gistDoc (List.mem_singleton.mpr rfl) (by decide) (by decide)

/-- C7: every document whose metadata lacks a `time` key is stamped
with one and the same once-computed build timestamp: the
`sync.Once`-guarded `currentTime` returns its first captured reading on
every call, and `fromMap` copies that shared value, so two documents
missing `time` in one build always carry equal timestamps. -/
theorem claim_C7_shared_timestamp :
    (∀ (n0 : GoTime) (nows : List GoTime),
      currentTimeSeq (n0 :: nows) none = (n0 :: nows).map (fun _ => n0))
    ∧ (∀ (ct : GoTime) (m1 m2 : Meta) (fm1 fm2 : FrontMatter),
      m1 (str "time") = [] → m2 (str "time") = [] →
      fromMap ct m1 = .ok fm1 → fromMap ct m2 = .ok fm2 →
      fm1.Time = ct ∧ fm2.Time = ct ∧ fm1.Time = fm2.Time) := by
  constructor
  · intro n0 nows
    simp [currentTimeSeq, currentTimeCall, currentTimeSeq_captured]
  · intro ct m1 m2 fm1 fm2 h1 h2 hf1 hf2
    have e1 := fromMap_no_time ct m1 fm1 h1 hf1
    have e2 := fromMap_no_time ct m2 fm2 h2 hf2
    exact ⟨e1, e2, by rw [e1, e2]⟩

def mTitleZ : Meta := metaUpdate metaEmpty (str "title") (str "Z")

/-- Witness for C7: three clock readings collapse to the first, and two
time-less metadata maps share the build timestamp. -/
theorem claim_C7_witness :
    currentTimeSeq [⟨2020, 1, 1, 0, 0, 0, 0⟩, ⟨2021, 2, 2, 0, 0, 0, 0⟩] none
      = [⟨2020, 1, 1, 0, 0, 0, 0⟩, ⟨2020, 1, 1, 0, 0, 0, 0⟩]
    ∧ ((⟨false, [], ct0⟩ : FrontMatter).Time = ct0
      ∧ (⟨false, str "Z", ct0⟩ : FrontMatter).Time = ct0
      ∧ (⟨false, [], ct0⟩ : FrontMatter).Time = (⟨false, str "Z", ct0⟩ : FrontMatter).Time) :=
  ⟨claim_C7_shared_timestamp.1 ⟨2020, 1, 1, 0, 0, 0, 0⟩ [⟨2021, 2, 2, 0, 0, 0, 0⟩],
   claim_C7_shared_timestamp.2 ct0 metaEmpty mTitleZ ⟨false, [], ct0⟩ ⟨false, str "Z", ct0⟩
     rfl (by decide) (by decide) (by decide)⟩

/-- C8: a markdown document with no metadata block produces a Page
whose title is the file-derived fallback — the file's name, i.e. the
last path segment — and whose timestamp is the file's filesystem
modification time. -/
theorem claim_C8_fallbacks (fns : FuncMap) (ct : GoTime) (e : WalkEntry) (expanded : Str)
    (hex : expandBody fns e.body = .ok expanded)
    (hno : fmParse ct e.rawLines = .error .noFrontMatter) :
    renderDoc fns ct e = .ok (some (dirOf e,
      ⟨renderMarkdown (stripFrontMatterText expanded),
       entryName e, e.modTime, pagePath e⟩)) :=
  renderDoc_no_front_matter fns ct e expanded hex hno

/-- Witness for C8 at a concrete metadata-less document. -/
theorem claim_C8_witness :
    renderDoc plugins ct0 docNoFM = .ok (some (dirOf docNoFM,
      ⟨renderMarkdown (stripFrontMatterText (str "text")), entryName docNoFM,
       docNoFM.modTime, pagePath docNoFM⟩)) :=
  claim_C8_fallbacks plugins ct0 docNoFM (str "text") (by decide) (by decide)

/-- Counterexample to C9 as stated: the cache lookup (trace index 0) is
a map read executed before the lock is acquired, so not every access to
the shared layout cache happens inside the critical section. -/
theorem claim_C9_counterexample :
    cacheMissTrace[0]? = some CacheOp.cacheRead
    ∧ underLock cacheMissTrace 0 = false := by
  decide

/-- C9 (amended): in phase 2's layout-cache access only the insertion
of the newly compiled template executes with the exclusion lock held;
the lookup that checks for an existing compiled template runs before
the lock is acquired, so check-and-insert is not one critical section
and an unlocked read can race another goroutine's locked write. -/
theorem claim_C9_amended :
    cacheMissTrace[0]? = some CacheOp.cacheRead
    ∧ underLock cacheMissTrace 0 = false
    ∧ cacheMissTrace[3]? = some CacheOp.cacheWrite
    ∧ underLock cacheMissTrace 3 = true
    ∧ cacheMissTrace[2]? = some CacheOp.lockAcquire
    ∧ cacheMissTrace[4]? = some CacheOp.lockRelease := by
  decide

/-- Counterexample to C10 as stated: a document whose metadata block is
unterminated can satisfy the split proviso and still return an error —
the recognized key `time` with value `notadate` fails validation, so
"no error" does not hold under the stated proviso alone. -/
theorem claim_C10_counterexample :
    (splitOnce ':' (str "time: notadate")).isSome = true
    ∧ (ParseFrontMatter ct0 [str "---", str "time: notadate"]).err
      = some (.invalid (str "time") (str "notadate") knownTimeFormats)
    ∧ (ParseFrontMatter ct0 [str "---", str "time: notadate"]).found = true := by
  decide

/-- C10 (amended): when the opening delimiter is present and the
closing delimiter never occurs, `ParseFrontMatter` consumes every
remaining line as a metadata line and returns `exists = true` with no
error, provided each line splits on the separator **and** the collected
values pass field validation; there is no unterminated-block error. -/
theorem claim_C10_amended (ct : GoTime) (rest : List Str) (fm : FrontMatter)
    (hno : FrontMatterSep ∉ rest)
    (hsp : ∀ l ∈ rest, (splitOnce ':' l).isSome)
    (hfm : fromMap ct (foldKV metaEmpty rest) = .ok fm) :
    ParseFrontMatter ct (FrontMatterSep :: rest) = ⟨fm, true, none⟩ := by
  simp only [ParseFrontMatter]
  rw [if_pos trivial, collectMeta_no_sep rest metaEmpty hno hsp]
  dsimp only
  rw [hfm]

/-- Witness for C10 (amended): an unterminated block whose lines all
split and validate parses to front matter with no error. -/
theorem claim_C10_amended_witness :
    ParseFrontMatter ct0 (FrontMatterSep :: [str "title: x", str "draft: true"])
      = ⟨⟨true, str "x", ct0⟩, true, none⟩ :=
  claim_C10_amended ct0 [str "title: x", str "draft: true"] ⟨true, str "x", ct0⟩
    (by decide) (by decide) (by decide)

/-- Counterexample to C2 as stated: a document with `draft: true` is
parsed as a draft, yet a successful build still materializes an output
file derived from it (`build/blog/d/index.html`) — phase 2's switch
never consults the draft flag. -/
theorem claim_C2_counterexample :
    fmParse ct0 docDraft.rawLines = .ok ⟨true, [], ct0⟩
    ∧ runOutputs plugins ct0 allTmplOk [docDraft]
      = [[str "build", str "blog", str "d", str "index.html"]] := by
  decide

/-- C2 (amended): a draft document appears in no Collection and is
absent from the page index — the worker returns before publishing it —
but phase 2 nevertheless creates an output file for every markdown
source, drafts included, so an output file derived from the draft does
exist under the output root whenever its directory's layout parses. -/
theorem claim_C2_amended (fns : FuncMap) (ct : GoTime) (tmplOk : List Str → Bool)
    (entries : List WalkEntry) (e : WalkEntry) (fm : FrontMatter)
    (he : e ∈ entries) (hmd : isMarkdownFile e = true)
    (hfm : fmParse ct e.rawLines = .ok fm) (hdr : fm.Draft = true)
    (hnd : ((walkDocs entries).map WalkEntry.relPath).Nodup)
    (hndp : ((walkDocs entries).map pagePath).Nodup)
    (hnoerr : makePagesErr fns ct entries = none)
    (htok : tmplOk (layoutPathOf e) = true) :
    pagesIndex fns ct entries e.relPath = none
    ∧ (∀ d pg, pg ∈ dirGroups fns ct entries d → pg.Path ≠ pagePath e)
    ∧ (str "build" :: (stripExtPath e.relPath ++ [str "index.html"]))
      ∈ runOutputs fns ct tmplOk entries := by
  have hwe : e ∈ walkDocs entries := List.mem_filter.mpr ⟨he, hmd⟩
  obtain ⟨hdirF, hmdext⟩ := isMarkdownFile_spec e hmd
  refine ⟨?_, ?_, ?_⟩
  · have hnil : ((walkDocs entries).filterMap fun e' =>
        match renderDoc fns ct e' with
        | .ok (some (_, pg)) => if e'.relPath = e.relPath then some pg else none
        | _ => none) = [] := by
      refine List.filterMap_eq_nil_iff.mpr ?_
      intro e' he'
      cases hrd : renderDoc fns ct e' with
      | error er => rfl
      | ok o =>
        cases o with
        | none => rfl
        | some r =>
          obtain ⟨d', pg'⟩ := r
          dsimp only
          by_cases hp : e'.relPath = e.relPath
          · have heq : e' = e := List.inj_on_of_nodup_map hnd he' hwe hp
            subst heq
            exact absurd hrd (renderDoc_draft_not_some fns ct e' fm (d', pg') hfm hdr)
          · rw [if_neg hp]
    unfold pagesIndex
    rw [hnil]
    rfl
  · intro d pg hpg
    unfold dirGroups at hpg
    obtain ⟨r, hr, hmr⟩ := List.mem_filterMap.mp hpg
    cases r with
    | error er => simp at hmr
    | ok p' =>
      obtain ⟨d', pg'⟩ := p'
      dsimp only at hmr
      by_cases hd' : d' = d
      · rw [if_pos hd'] at hmr
        injection hmr with hmr2
        subst hmr2
        obtain ⟨e', he', hge'⟩ := List.mem_filterMap.mp hr
        cases hrd : renderDoc fns ct e' with
        | error er =>
          rw [hrd] at hge'
          simp at hge'
        | ok o =>
          cases o with
          | none =>
            rw [hrd] at hge'
            simp at hge'
          | some rr =>
            rw [hrd] at hge'
            simp only [Option.some.injEq, Except.ok.injEq] at hge'
            subst hge'
            have hshape := renderDoc_some_shape fns ct e' d' pg' hrd
            intro hpath
            rw [hshape.2] at hpath
            have heq : e' = e := List.inj_on_of_nodup_map hndp he' hwe hpath
            subst heq
            exact renderDoc_draft_not_some fns ct e' fm (d', pg') hfm hdr hrd
      · rw [if_neg hd'] at hmr
        cases hmr
  · unfold runOutputs
    rw [hnoerr]
    exact List.mem_filterMap.mpr ⟨e, he, phase2Out_markdown tmplOk e hdirF hmdext htok⟩

/-- Witness for C2 (amended) at a two-document build: the draft is
missing from the index and from every collection page list, yet its
output file is still written. -/
theorem claim_C2_amended_witness :
    pagesIndex plugins ct0 [docDraft, docB] docDraft.relPath = none
    ∧ (∀ d pg, pg ∈ dirGroups plugins ct0 [docDraft, docB] d → pg.Path ≠ pagePath docDraft)
    ∧ (str "build" :: (stripExtPath docDraft.relPath ++ [str "index.html"]))
      ∈ runOutputs plugins ct0 allTmplOk [docDraft, docB] :=
  claim_C2_amended plugins ct0 allTmplOk [docDraft, docB] docDraft ⟨true, [], ct0⟩
    (List.mem_cons_self _ _) (by decide) (by decide) rfl (by decide) (by decide)
    (by decide) (by decide)
